import Mathlib

/-!
Verification of the FlexDS discovery-to-snapshot pipeline.

This file gives a shallow embedding, in Lean 4, of the core functions of the
FlexDS control plane (snapshot construction, discovery aggregation, the Consul
watcher strategies, the Marathon poll loop and converter, and the xDS stream
callback), and proves or refutes the specified properties about them.
Every definition is translated directly from the corresponding Go function.
-/

namespace FlexDS

/-! ## Service model (internal/common/types, internal/discovery/model.go) -/

structure ServiceInstance where
  address : String
  port : Nat
  deriving DecidableEq

structure RoutePattern where
  name : String
  matchType : String
  pathPrefix : String
  headerName : String
  headerValue : String
  prefixRewrite : String
  regexRewrite : String
  regexReplacement : String
  deriving DecidableEq

structure DiscoveredService where
  name : String
  instances : List ServiceInstance
  routes : List RoutePattern
  enableHTTP2 : Bool
  enableTLS : Bool
  dnsRefreshRate : Nat
  deriving DecidableEq

/-! ## Snapshot version counter (xds snapshot manager)

The Go source keeps `var version uint64 = 1` and every call of
`BuildAndPushSnapshot` — on both the empty-snapshot path and the non-empty
path — performs exactly one `atomic.AddUint64(&version, 1)` and renders the
result with `fmt.Sprintf("%d", ...)` as the installed snapshot's version. -/

def UINT64_MOD : Nat := 18446744073709551616

/-- Wrapping 64-bit addition, as performed by `atomic.AddUint64`. -/
def addUint64 (v delta : Nat) : Nat := (v + delta) % UINT64_MOD

/-- Initial value of the process-global `version` variable. -/
def initialVersion : Nat := 1

/-- Value of the `version` counter after `n` calls of `BuildAndPushSnapshot`. -/
def versionCounterAfter : Nat → Nat
  | 0 => initialVersion
  | n + 1 => addUint64 (versionCounterAfter n) 1

/-- The version number rendered into the version string of the `n`-th
(0-indexed) installed snapshot: the counter value right after its bump. -/
def installedVersion (n : Nat) : Nat := versionCounterAfter (n + 1)

/-- The version string of the `n`-th installed snapshot
(`fmt.Sprintf("%d", ...)` renders the counter in decimal). -/
def installedVersionString (n : Nat) : String := toString (installedVersion n)

/-! ## Snapshot resource construction (`BuildAndPushSnapshot`)

The per-service resource construction of `BuildAndPushSnapshot`: services
with an empty instance list or an empty route list are skipped
(`len(svc.Instances) == 0 || len(svc.Routes) == 0`); for the rest a load
assignment (endpoints being the non-empty-address instances in input
order), a cluster, and one route per pattern are appended. -/

structure LbEndpoint where
  address : String
  port : Nat
  deriving DecidableEq

structure ClusterLoadAssignment where
  clusterName : String
  lbEndpoints : List LbEndpoint
  deriving DecidableEq

inductive RewriteAction where
  | noRewrite
  | prefixRewrite (value : String)
  | regexRewrite (pattern substitution : String)
  deriving DecidableEq

structure HeaderMatcher where
  name : String
  exactMatch : String
  deriving DecidableEq

structure BuiltRoute where
  pathPrefix : String
  headers : List HeaderMatcher
  cluster : String
  rewrite : RewriteAction
  deriving DecidableEq

structure Cluster where
  name : String
  loadAssignment : ClusterLoadAssignment
  dnsRefreshRate : Nat
  respectDnsTtl : Bool
  enableHTTP2 : Bool
  enableTLS : Bool
  alpnProtocols : List String
  deriving DecidableEq

/-- The endpoint loop: instances with an empty address are skipped, the
rest become `LbEndpoint`s in input order. -/
def mkLbEndpoints : List ServiceInstance → List LbEndpoint
  | [] => []
  | inst :: rest =>
    if inst.address = "" then mkLbEndpoints rest
    else { address := inst.address, port := inst.port } :: mkLbEndpoints rest

/-- The cluster built for a service: strict-DNS semantics with IPv4 lookup;
`RespectDnsTtl` starts true and is cleared when `DnsRefreshRate > 0`; ALPN
is set only with TLS, `h2` first when HTTP/2 is on. -/
def mkCluster (svc : DiscoveredService) (cla : ClusterLoadAssignment) :
    Cluster :=
  { name := svc.name
    loadAssignment := cla
    dnsRefreshRate := svc.dnsRefreshRate
    respectDnsTtl := if 0 < svc.dnsRefreshRate then false else true
    enableHTTP2 := svc.enableHTTP2
    enableTLS := svc.enableTLS
    alpnProtocols :=
      if svc.enableTLS then
        if svc.enableHTTP2 then ["h2", "http/1.1"] else ["http/1.1"]
      else [] }

/-- The route built from one route pattern: prefix match; an exact header
matcher when the match type is header or both and both header fields are
non-empty; regex rewrite wins over the legacy prefix rewrite. -/
def mkRoute (clusterName : String) (rp : RoutePattern) : BuiltRoute :=
  { pathPrefix := rp.pathPrefix
    headers :=
      if (rp.matchType = "header" ∨ rp.matchType = "both") ∧
          rp.headerName ≠ "" ∧ rp.headerValue ≠ "" then
        [{ name := rp.headerName, exactMatch := rp.headerValue }]
      else []
    cluster := clusterName
    rewrite :=
      if rp.regexRewrite ≠ "" then
        RewriteAction.regexRewrite rp.regexRewrite rp.regexReplacement
      else if rp.prefixRewrite ≠ "" then
        RewriteAction.prefixRewrite rp.prefixRewrite
      else RewriteAction.noRewrite }

structure BuildResult where
  clusters : List Cluster
  endpoints : List ClusterLoadAssignment
  allRoutes : List BuiltRoute
  deriving DecidableEq

/-- The service loop of `BuildAndPushSnapshot`, appending each admitted
service's cluster, load assignment, and routes in input order. -/
def buildResources : List DiscoveredService → BuildResult
  | [] => { clusters := [], endpoints := [], allRoutes := [] }
  | svc :: rest =>
    let r := buildResources rest
    if svc.instances.length = 0 ∨ svc.routes.length = 0 then r
    else
      let cla : ClusterLoadAssignment :=
        { clusterName := svc.name, lbEndpoints := mkLbEndpoints svc.instances }
      { clusters := mkCluster svc cla :: r.clusters
        endpoints := cla :: r.endpoints
        allRoutes := svc.routes.map (mkRoute svc.name) ++ r.allRoutes }

/-- A route pattern used by concrete examples. -/
def pathRoute : RoutePattern :=
  { name := "r"
    matchType := "path"
    pathPrefix := "/s"
    headerName := ""
    headerValue := ""
    prefixRewrite := ""
    regexRewrite := ""
    regexReplacement := "" }

/-- A service whose single instance has an empty address but which still has
one instance and one route. -/
def emptyAddressService : DiscoveredService :=
  { name := "s"
    instances := [{ address := "", port := 80 }]
    routes := [pathRoute]
    enableHTTP2 := false
    enableTLS := false
    dnsRefreshRate := 0 }

/-- A service with one non-empty-address instance and one route. -/
def simpleService : DiscoveredService :=
  { name := "hello"
    instances := [{ address := "h1", port := 8080 }]
    routes := [pathRoute]
    enableHTTP2 := false
    enableTLS := false
    dnsRefreshRate := 0 }

/-! ## Discovery aggregator (internal/discovery/aggregator.go)

`UpdateServices` replaces the slot of the calling loader in
`discoveredServiceMap`, concatenates all slots, and unconditionally calls
`BuildAndPushSnapshot` on the merged list.  The Go map is modelled as an
association list whose iteration order is its list order. -/

def AggState : Type := List (String × List DiscoveredService)

/-- Replace the slot of `loaderId` (the Go map assignment
`a.discoveredServiceMap[loaderId] = services`). -/
def setSlot : List (String × List DiscoveredService) → String →
    List DiscoveredService → List (String × List DiscoveredService)
  | [], loaderId, services => [(loaderId, services)]
  | (k, v) :: rest, loaderId, services =>
    if k = loaderId then (k, services) :: rest
    else (k, v) :: setSlot rest loaderId services

/-- Concatenation of all slots in iteration order (the `append` loop over
`discoveredServiceMap`). -/
def mergedServices (st : List (String × List DiscoveredService)) :
    List DiscoveredService :=
  (st.map Prod.snd).flatten

structure UpdateResult where
  state : List (String × List DiscoveredService)
  merged : List DiscoveredService
  pushed : Bool
  deriving DecidableEq

/-- One call of `DiscoveredServiceAggregator.UpdateServices`: replace the
slot, merge, and call `BuildAndPushSnapshot` (always). -/
def updateServices (st : List (String × List DiscoveredService))
    (loaderId : String) (services : List DiscoveredService) : UpdateResult :=
  let st' := setSlot st loaderId services
  { state := st', merged := mergedServices st', pushed := true }

/-! ## Marathon poll loop and converter (internal/discovery/marathon) -/

/-- Outcome of one `loadConfig` call at a timer tick. -/
inductive TickResult where
  | ok
  | err
  deriving DecidableEq

/-- The `LoadConfig` timer loop: on each tick it calls `loadConfig`; on an
error it logs and `return err`, so the loop exits and later ticks never
happen.  Result: (number of polls performed, whether the loop was terminated
by an error). -/
def marathonPollLoop : List TickResult → Nat × Bool
  | [] => (0, false)
  | TickResult.ok :: rest =>
    let r := marathonPollLoop rest
    (r.1 + 1, r.2)
  | TickResult.err :: _ => (1, true)

structure MarathonPortDefinition where
  port : Nat
  name : String
  labels : List (String × String)
  deriving DecidableEq

structure MarathonHealthCheckResult where
  alive : Bool
  deriving DecidableEq

structure MarathonIPAddress where
  ipAddress : String
  protocol : String
  deriving DecidableEq

structure MarathonTask where
  id : String
  host : String
  ipAddresses : List MarathonIPAddress
  ports : List Nat
  healthCheckResults : List MarathonHealthCheckResult
  state : String
  deriving DecidableEq

structure MarathonApp where
  id : String
  ports : List Nat
  portDefinitions : List MarathonPortDefinition
  tasks : List MarathonTask
  labels : List (String × String)
  deriving DecidableEq

/-- Go map lookup `labels[k]` returning whether the key is present. -/
def lookupLabel (labels : List (String × String)) (k : String) : Option String :=
  (labels.find? (fun p => p.1 == k)).map Prod.snd

/-- `marathonTask.IsHealthy`. -/
def isHealthy (t : MarathonTask) : Bool :=
  if t.state ≠ "TASK_RUNNING" ∨ t.healthCheckResults.length = 0 then false
  else t.healthCheckResults.any (fun r => r.alive)

/-- `getTaskAddress`: first IPv4 address with a non-empty value, else the
task's host. -/
def getTaskAddress (t : MarathonTask) : String :=
  match t.ipAddresses.find? (fun ip => ip.protocol == "IPv4" && ip.ipAddress != "") with
  | some ip => ip.ipAddress
  | none => t.host

/-- The `strings.NewReplacer("/", "_", "-", "_")` replacement, on the
string's character list. -/
def sanitizeChars (s : String) : String :=
  String.mk (s.data.map (fun c => if c = '/' ∨ c = '-' then '_' else c))

/-- `app.ID[1:]` followed by the replacer: Go slicing panics when the string
is empty, hence the `Option`. -/
def sanitizeAppId (id : String) : Option String :=
  if id.length < 1 then none
  else some (sanitizeChars (String.mk (id.data.drop 1)))

/-- `buildRoutes`: one path-prefix route and one header route, keyed by the
`routing_key` label when present and non-empty, else the service name. -/
def buildRoutes (serviceName : String) (labels : List (String × String)) :
    List RoutePattern :=
  let routingKey :=
    match lookupLabel labels "routing_key" with
    | some v => if v ≠ "" then v else serviceName
    | none => serviceName
  [ { name := serviceName ++ "-route-prefix"
      matchType := "path"
      pathPrefix := "/" ++ routingKey
      headerName := ""
      headerValue := ""
      prefixRewrite := "/"
      regexRewrite := ""
      regexReplacement := "" },
    { name := serviceName ++ "-route-header"
      matchType := "header"
      pathPrefix := ""
      headerName := "destination_service"
      headerValue := routingKey
      prefixRewrite := ""
      regexRewrite := ""
      regexReplacement := "" } ]

/-- The instance built for one healthy task inside the portDefinitions loop:
`task.Ports[portIndex]` is an unchecked index and panics (modelled as `none`)
when the task has fewer ports than the app has port definitions. -/
def taskInstance (portIndex : Nat) (task : MarathonTask) : Option ServiceInstance :=
  match task.ports.get? portIndex with
  | some p => some { address := getTaskAddress task, port := p }
  | none => none

/-- The service built for one `(portIndex, portDef)` pair of an app. -/
def serviceForPortDef (appId : String) (healthyTasks : List MarathonTask)
    (portIndex : Nat) (portDef : MarathonPortDefinition) :
    Option DiscoveredService := do
  let sanitizedAppId ← sanitizeAppId appId
  let serviceName := "mesos_" ++ sanitizedAppId ++ "_" ++ portDef.name
  let instances ← healthyTasks.mapM (taskInstance portIndex)
  pure { name := serviceName
         instances := instances
         routes := buildRoutes serviceName portDef.labels
         enableHTTP2 := portDef.name == "grpc" || lookupLabel portDef.labels "http2" == some "true"
         enableTLS := false
         dnsRefreshRate := 0 }

/-- `convertToDiscoveredServices` for one app: apps with no healthy task are
skipped; otherwise one service per port definition. -/
def convertApp (app : MarathonApp) : Option (List DiscoveredService) :=
  let healthyTasks := app.tasks.filter isHealthy
  if healthyTasks.length = 0 then some []
  else app.portDefinitions.enum.mapM
    (fun p => serviceForPortDef app.id healthyTasks p.1 p.2)

/-- `convertToDiscoveredServices`: `none` models a Go panic (out-of-range
index) during the conversion. -/
def convertToDiscoveredServices (apps : List MarathonApp) :
    Option (List DiscoveredService) :=
  (apps.mapM convertApp).map List.flatten

/-- A healthy running task with an empty ports list. -/
def portlessTask : MarathonTask :=
  { id := "t1"
    host := "h1"
    ipAddresses := []
    ports := []
    healthCheckResults := [{ alive := true }]
    state := "TASK_RUNNING" }

/-- A concrete app whose single healthy task has an empty ports list while
the app declares one port definition. -/
def portlessApp : MarathonApp :=
  { id := "/a"
    ports := []
    portDefinitions := [{ port := 80, name := "web", labels := [] }]
    tasks := [portlessTask]
    labels := [] }

/-! ## Consul watchers (internal/discovery/consul/watcher, consul_loader.go)

Each watcher runs a blocking-query loop; on an index advance it extracts the
candidate service names from the keys of the returned
`map[string][]string`.  The map is modelled as an association list. -/

/-- The name-extraction loop of `ImmediateWatcher.Watch` (`for serviceName
:= range serviceMapping { svcList = append(svcList, serviceName) }`). -/
def immediateCandidates : List (String × List String) → List String
  | [] => []
  | (serviceName, _) :: rest => serviceName :: immediateCandidates rest

/-- The name-extraction loop of `BatchWatcher.Watch`. -/
def batchCandidates : List (String × List String) → List String
  | [] => []
  | (serviceName, _) :: rest => serviceName :: batchCandidates rest

/-- The name-extraction loop of `DebounceWatcher.Watch`. -/
def debounceCandidates : List (String × List String) → List String
  | [] => []
  | (serviceName, _) :: rest => serviceName :: debounceCandidates rest

/-- `filterServices` (watcher/helpers.go): extracts service names excluding
`"consul"`.  Present in the package, but not called by the watchers. -/
def filterServices : List (String × List String) → List String
  | [] => []
  | (name, _) :: rest =>
    if name ≠ "consul" then name :: filterServices rest
    else filterServices rest

/-- A catalog response containing Consul's own meta-service. -/
def consulMapping : List (String × List String) :=
  [("consul", []), ("web", [])]

/-! ## Debounce watcher timing (`DebounceWatcher.Watch`)

The replay of the debounce loop over a finite timeline of index-advancing
changes `(time, serviceList)`.  State: `pendingUpdate`, the debounce timer's
expiry instant, and `latestServices`.  The armed timer fires (handler call
with the latest list) before processing any change whose time has reached
the expiry; each processed change (re)arms the timer `D` in the future.
After the final change the armed timer eventually fires. -/

def debounceRun (D : Nat) :
    Bool → Nat → List String → List (Nat × List String) → List (List String)
  | pending, _deadline, latest, [] => if pending then [latest] else []
  | pending, deadline, latest, (t, s) :: rest =>
    if pending ∧ deadline ≤ t then
      latest :: debounceRun D true (t + D) s rest
    else
      debounceRun D true (t + D) s rest

/-- The full debounce watch over a timeline of changes: `pendingUpdate`
starts false and `latestServices` starts nil. -/
def debounceWatch (D : Nat) (changes : List (Nat × List String)) :
    List (List String) :=
  debounceRun D false 0 [] changes

/-- Consecutive changes are in time order and strictly within `D` of each
other. -/
def gapsWithin (D : Nat) : List (Nat × List String) → Bool
  | [] => true
  | [_] => true
  | (t1, _) :: (t2, s2) :: rest =>
    (decide (t1 ≤ t2) && decide (t2 < t1 + D)) && gapsWithin D ((t2, s2) :: rest)

/-! ## Batch watcher timing (`BatchWatcher.Watch`)

The replay of the batch loop over a finite timeline of index-advancing
change instants.  State: `batchCount` and the batch timer's expiry.  The
timer is armed only on the first change of a window (`batchCount == 1`) and
fires (handler call, counter reset) before processing any change whose time
has reached the expiry; reaching `maxBatchSize` fires immediately.  The
result is the number of handler calls. -/

def batchRun (N T : Nat) : Nat → Nat → List Nat → Nat
  | count, _deadline, [] => if 0 < count then 1 else 0
  | count, deadline, t :: rest =>
    let fired : Nat := if 0 < count ∧ deadline ≤ t then 1 else 0
    let count0 : Nat := if 0 < count ∧ deadline ≤ t then 0 else count
    let count1 := count0 + 1
    if N ≤ count1 then fired + 1 + batchRun N T 0 deadline rest
    else fired + batchRun N T count1 (if count1 = 1 then t + T else deadline) rest

/-- The full batch watch over a timeline of change instants: counter starts
at zero with no armed timer. -/
def batchWatch (N T : Nat) (times : List Nat) : Nat :=
  batchRun N T 0 0 times

/-- Consecutive change instants are in time order with no gap greater than
`T` (the hypothesis of the original claim). -/
def gapsAtMost (T : Nat) : List Nat → Bool
  | [] => true
  | [_] => true
  | t1 :: t2 :: rest =>
    (decide (t1 ≤ t2) && decide (t2 ≤ t1 + T)) && gapsAtMost T (t2 :: rest)

/-- Helper for `windowsOk`: `k` changes of the current window remain, whose
instants must precede `dl`; when the window is exhausted the next change
opens a fresh window of `N - 1` followers within `T` of it. -/
def windowsOkFrom (N T : Nat) : Nat → Nat → List Nat → Bool
  | _, _, [] => true
  | 0, _, t :: rest => windowsOkFrom N T (N - 1) (t + T) rest
  | k + 1, dl, t :: rest => decide (t < dl) && windowsOkFrom N T k dl rest

/-- Every change falls strictly within `T` of the first change of its window
of `N` consecutive changes (the timer of a window is armed at the window's
first change and never re-armed). -/
def windowsOk (N T : Nat) (times : List Nat) : Bool :=
  windowsOkFrom N T 0 0 times

/-! ## Watcher index tracking

All three watchers run `if meta.LastIndex == lastIndex { continue }` and
otherwise `lastIndex = meta.LastIndex`; a query error leaves the index
unchanged (sleep one second and retry). -/

/-- One loop iteration's effect on `lastIndex`: `none` is a query error,
`some m` a response with `meta.LastIndex = m`. -/
def indexStep (lastIndex : Nat) : Option Nat → Nat
  | none => lastIndex
  | some m => if m = lastIndex then lastIndex else m

/-- The successive values of `lastIndex` over a run, starting from
`lastIndex` (zero at watcher start). -/
def watchIndexStates (lastIndex : Nat) : List (Option Nat) → List Nat
  | [] => [lastIndex]
  | r :: rest => lastIndex :: watchIndexStates (indexStep lastIndex r) rest

/-- A list of naturals is nondecreasing. -/
def nondecreasingB : List Nat → Bool
  | [] => true
  | [_] => true
  | a :: b :: rest => decide (a ≤ b) && nondecreasingB (b :: rest)

/-! ## Snapshot cache and xDS stream callback (ServerCallbacks.OnStreamRequest)

The snapshot cache is modelled as an association list from node id to a
snapshot (an opaque identifier).  `OnStreamRequest` fetches the reference
snapshot and — on every request, without checking whether the node is
already known — sets it as the requesting node's snapshot. -/

def REFERENCE_KEY : String := "__REFERENCE_SNAPSHOT__"

def cacheGet (cache : List (String × Nat)) (k : String) : Option Nat :=
  (cache.find? (fun p => p.1 == k)).map Prod.snd

def cacheSet : List (String × Nat) → String → Nat → List (String × Nat)
  | [], k, snap => [(k, snap)]
  | (k', v) :: rest, k, snap =>
    if k' = k then (k', snap) :: rest
    else (k', v) :: cacheSet rest k snap

/-- `ServerCallbacks.OnStreamRequest`: `GetSnapshot` of the reference key
(error propagated, cache unchanged), then `SetSnapshot` under the
requesting node's id. -/
def onStreamRequest (cache : List (String × Nat)) (nodeID : String) :
    Except String (List (String × Nat)) :=
  match cacheGet cache REFERENCE_KEY with
  | none => Except.error "error fetching reference snapshot"
  | some snap => Except.ok (cacheSet cache nodeID snap)

/-- A cache holding the reference snapshot `1` and, for the already-known
node `node-a`, an older snapshot `2`. -/
def primedCache : List (String × Nat) := [(REFERENCE_KEY, 1), ("node-a", 2)]

end FlexDS

namespace FlexDS

/-! ## Helper lemmas -/

theorem versionCounterAfter_eq (n : Nat) :
    versionCounterAfter n = (1 + n) % UINT64_MOD := by
  induction n with
  | zero =>
    simp [versionCounterAfter, initialVersion, UINT64_MOD]
  | succ n ih =>
    rw [versionCounterAfter, ih, addUint64, Nat.mod_add_mod]
    congr 1

theorem setSlot_idem (st : List (String × List DiscoveredService))
    (loaderId : String) (services : List DiscoveredService) :
    setSlot (setSlot st loaderId services) loaderId services =
      setSlot st loaderId services := by
  induction st with
  | nil => simp [setSlot]
  | cons kv rest ih =>
    by_cases h : kv.1 = loaderId
    · simp [setSlot, h]
    · simp [setSlot, h, ih]

theorem cacheGet_cacheSet_self (cache : List (String × Nat)) (k : String)
    (snap : Nat) : cacheGet (cacheSet cache k snap) k = some snap := by
  induction cache with
  | nil => simp [cacheSet, cacheGet]
  | cons kv rest ih =>
    by_cases h : kv.1 = k
    · simp [cacheSet, cacheGet, h]
    · simp only [cacheSet, if_neg h]
      have hbeq : (kv.1 == k) = false := beq_eq_false_iff_ne.mpr h
      rw [cacheGet, List.find?, hbeq]
      exact ih

theorem nondecreasingB_tail (a : Nat) (l : List Nat)
    (h : nondecreasingB (a :: l) = true) : nondecreasingB l = true := by
  cases l with
  | nil => rfl
  | cons b t =>
    rw [nondecreasingB, Bool.and_eq_true] at h
    exact h.2

theorem indexStep_some (c m : Nat) : indexStep c (some m) = m := by
  rw [indexStep]
  split <;> omega

theorem watchIndexStates_aux (rs : List (Option Nat)) :
    ∀ c d : Nat, d ≤ c → nondecreasingB (c :: rs.filterMap id) = true →
      nondecreasingB (d :: watchIndexStates c rs) = true := by
  induction rs with
  | nil =>
    intro c d hdc _
    simp [watchIndexStates, nondecreasingB, hdc]
  | cons r rest ih =>
    intro c d hdc h
    cases r with
    | none =>
      rw [watchIndexStates, nondecreasingB, Bool.and_eq_true]
      refine ⟨by simpa using hdc, ?_⟩
      have : indexStep c none = c := rfl
      rw [this]
      exact ih c c le_rfl (by simpa using h)
    | some m =>
      rw [List.filterMap] at h
      simp only [id] at h
      rw [nondecreasingB, Bool.and_eq_true] at h
      obtain ⟨hcm, hrest⟩ := h
      rw [watchIndexStates, nondecreasingB, Bool.and_eq_true, indexStep_some]
      exact ⟨by simpa using hdc, ih m c (by simpa using hcm) hrest⟩

theorem mem_clusters_cons (x : DiscoveredService)
    (rest : List DiscoveredService) (c : Cluster)
    (hc : c ∈ (buildResources rest).clusters) :
    c ∈ (buildResources (x :: rest)).clusters := by
  by_cases h : x.instances.length = 0 ∨ x.routes.length = 0
  · simpa only [buildResources, if_pos h] using hc
  · simp only [buildResources, if_neg h]
    exact List.mem_cons_of_mem _ hc

theorem mem_endpoints_cons (x : DiscoveredService)
    (rest : List DiscoveredService) (e : ClusterLoadAssignment)
    (he : e ∈ (buildResources rest).endpoints) :
    e ∈ (buildResources (x :: rest)).endpoints := by
  by_cases h : x.instances.length = 0 ∨ x.routes.length = 0
  · simpa only [buildResources, if_pos h] using he
  · simp only [buildResources, if_neg h]
    exact List.mem_cons_of_mem _ he

theorem mem_allRoutes_cons (x : DiscoveredService)
    (rest : List DiscoveredService) (r : BuiltRoute)
    (hr : r ∈ (buildResources rest).allRoutes) :
    r ∈ (buildResources (x :: rest)).allRoutes := by
  by_cases h : x.instances.length = 0 ∨ x.routes.length = 0
  · simpa only [buildResources, if_pos h] using hr
  · simp only [buildResources, if_neg h]
    exact List.mem_append_right _ hr

theorem contributes_of_admitted (services : List DiscoveredService) :
    ∀ svc : DiscoveredService, svc ∈ services → svc.instances ≠ [] →
      svc.routes ≠ [] →
      (∃ c ∈ (buildResources services).clusters, c.name = svc.name) ∧
        (∃ e ∈ (buildResources services).endpoints,
          e.clusterName = svc.name) ∧
        (∃ r ∈ (buildResources services).allRoutes, r.cluster = svc.name) := by
  induction services with
  | nil =>
    intro svc h
    cases h
  | cons x rest ih =>
    intro svc hmem hi hr
    rcases List.mem_cons.mp hmem with heq | hmem'
    · subst heq
      have hcond : ¬(svc.instances.length = 0 ∨ svc.routes.length = 0) := by
        rw [not_or, List.length_eq_zero, List.length_eq_zero]
        exact ⟨hi, hr⟩
      simp only [buildResources, if_neg hcond]
      obtain ⟨rp, rps, hrp⟩ := List.exists_cons_of_ne_nil hr
      refine ⟨⟨_, List.mem_cons_self _ _, rfl⟩,
        ⟨_, List.mem_cons_self _ _, rfl⟩,
        ⟨mkRoute svc.name rp, ?_, rfl⟩⟩
      rw [hrp]
      exact List.mem_append_left _
        (List.mem_map_of_mem _ (List.mem_cons_self _ _))
    · obtain ⟨⟨c, hc, hcn⟩, ⟨e, he, hen⟩, ⟨r, hra, hrc⟩⟩ := ih svc hmem' hi hr
      exact ⟨⟨c, mem_clusters_cons x rest c hc, hcn⟩,
        ⟨e, mem_endpoints_cons x rest e he, hen⟩,
        ⟨r, mem_allRoutes_cons x rest r hra, hrc⟩⟩

theorem cluster_name_source (services : List DiscoveredService) :
    ∀ n : String, (∃ c ∈ (buildResources services).clusters, c.name = n) →
      ∃ s ∈ services, s.name = n ∧ s.instances ≠ [] ∧ s.routes ≠ [] := by
  induction services with
  | nil =>
    rintro n ⟨c, hc, -⟩
    simp only [buildResources, List.not_mem_nil] at hc
  | cons x rest ih =>
    rintro n ⟨c, hc, hn⟩
    by_cases h : x.instances.length = 0 ∨ x.routes.length = 0
    · simp only [buildResources, if_pos h] at hc
      obtain ⟨s, hs, h1, h2, h3⟩ := ih n ⟨c, hc, hn⟩
      exact ⟨s, List.mem_cons_of_mem _ hs, h1, h2, h3⟩
    · simp only [buildResources, if_neg h] at hc
      rcases List.mem_cons.mp hc with hceq | hc'
      · rw [not_or, List.length_eq_zero, List.length_eq_zero] at h
        refine ⟨x, List.mem_cons_self _ _, ?_, h.1, h.2⟩
        rw [← hn, hceq]
        rfl
      · obtain ⟨s, hs, h1, h2, h3⟩ := ih n ⟨c, hc', hn⟩
        exact ⟨s, List.mem_cons_of_mem _ hs, h1, h2, h3⟩

theorem debounceRun_armed (D : Nat) :
    ∀ (rest : List (Nat × List String)) (t : Nat) (s : List String),
      gapsWithin D ((t, s) :: rest) = true →
      debounceRun D true (t + D) s rest =
        [(((t, s) :: rest).getLast (List.cons_ne_nil _ _)).2] := by
  intro rest
  induction rest with
  | nil =>
    intro t s _
    rfl
  | cons c2 rest' ih =>
    intro t s h
    obtain ⟨t2, s2⟩ := c2
    rw [gapsWithin, Bool.and_eq_true, Bool.and_eq_true] at h
    obtain ⟨⟨-, hlt⟩, htail⟩ := h
    rw [decide_eq_true_eq] at hlt
    rw [debounceRun, if_neg (fun hcon => absurd hcon.2 (by omega)),
      ih t2 s2 htail, List.getLast_cons (List.cons_ne_nil _ _)]

theorem batchRun_count_zero (N T : Nat) :
    ∀ (l : List Nat) (d d' : Nat), batchRun N T 0 d l = batchRun N T 0 d' l := by
  intro l
  induction l with
  | nil =>
    intro d d'
    rfl
  | cons t rest ih =>
    intro d d'
    rw [batchRun, batchRun]
    simp only [lt_self_iff_false, false_and, if_false, Nat.zero_add]
    by_cases hN : N ≤ 1
    · simp only [if_pos hN]
      rw [ih d d']
    · simp only [if_neg hN, if_true]

theorem batchRun_window_full (N T : Nat) :
    ∀ (w : List Nat) (t : Nat) (tail : List Nat) (c dl : Nat),
      1 ≤ c → c + w.length + 1 = N → t < dl → (∀ u ∈ w, u < dl) →
      batchRun N T c dl (t :: (w ++ tail)) = 1 + batchRun N T 0 0 tail := by
  intro w
  induction w with
  | nil =>
    intro t tail c dl hc hN ht _
    have hN' : c + 1 = N := by simpa using hN
    rw [List.nil_append, batchRun]
    have hfired : ¬(0 < c ∧ dl ≤ t) := by omega
    simp only [if_neg hfired]
    rw [if_pos (by omega : N ≤ c + 1), batchRun_count_zero N T tail dl 0]
  | cons u w' ih =>
    intro t tail c dl hc hN ht hall
    rw [List.length_cons] at hN
    rw [List.cons_append, batchRun]
    have hfired : ¬(0 < c ∧ dl ≤ t) := by omega
    simp only [if_neg hfired]
    rw [if_neg (by omega : ¬N ≤ c + 1), if_neg (by omega : ¬c + 1 = 1)]
    rw [ih u tail (c + 1) dl (by omega) (by omega)
      (hall u (List.mem_cons_self _ _))
      (fun v hv => hall v (List.mem_cons_of_mem _ hv))]
    omega

theorem batchRun_window_short (N T : Nat) :
    ∀ (w : List Nat) (c dl : Nat), 1 ≤ c → c + w.length < N →
      (∀ u ∈ w, u < dl) → batchRun N T c dl w = 1 := by
  intro w
  induction w with
  | nil =>
    intro c dl hc _ _
    rw [batchRun, if_pos (by omega : 0 < c)]
  | cons t w' ih =>
    intro c dl hc hlen hall
    rw [List.length_cons] at hlen
    rw [batchRun]
    have hfired : ¬(0 < c ∧ dl ≤ t) := by
      have := hall t (List.mem_cons_self _ _)
      omega
    simp only [if_neg hfired]
    rw [if_neg (by omega : ¬N ≤ c + 1), if_neg (by omega : ¬c + 1 = 1)]
    rw [ih (c + 1) dl (by omega) (by omega)
      (fun v hv => hall v (List.mem_cons_of_mem _ hv))]

theorem windowsOkFrom_spec (N T : Nat) :
    ∀ (l : List Nat) (k dl : Nat),
      windowsOkFrom N T k dl l =
        ((l.take k).all (fun t => decide (t < dl)) &&
          windowsOk N T (l.drop k)) := by
  intro l
  induction l with
  | nil =>
    intro k dl
    simp [windowsOkFrom, windowsOk]
  | cons t rest ih =>
    intro k dl
    cases k with
    | zero =>
      simp only [List.take_zero, List.all_nil, List.drop_zero, Bool.true_and]
      rfl
    | succ k' =>
      rw [windowsOkFrom, List.take_succ_cons, List.all_cons,
        List.drop_succ_cons, ih k' dl, Bool.and_assoc]

theorem windowsOk_cons (N T : Nat) (t0 : Nat) (rest : List Nat) :
    windowsOk N T (t0 :: rest) =
      ((rest.take (N - 1)).all (fun t => decide (t < t0 + T)) &&
        windowsOk N T (rest.drop (N - 1))) := by
  rw [windowsOk, windowsOkFrom, windowsOkFrom_spec]

theorem batchRun_windows_aux (N T : Nat) (hN : 1 ≤ N) :
    ∀ (fuel : Nat) (times : List Nat), times.length ≤ fuel →
      windowsOk N T times = true →
      batchRun N T 0 0 times = (times.length + N - 1) / N := by
  intro fuel
  induction fuel with
  | zero =>
    intro times hle _
    have hnil : times = [] := List.eq_nil_of_length_eq_zero (Nat.le_zero.mp hle)
    subst hnil
    rw [batchRun, if_neg (by omega : ¬(0 : Nat) < 0), List.length_nil,
      Nat.div_eq_of_lt (by omega)]
  | succ fuel ih =>
    intro times hle hw
    cases times with
    | nil =>
      rw [batchRun, if_neg (by omega : ¬(0 : Nat) < 0), List.length_nil,
        Nat.div_eq_of_lt (by omega)]
    | cons t0 rest =>
      rw [windowsOk_cons, Bool.and_eq_true] at hw
      obtain ⟨hall, hwrest⟩ := hw
      have hallP : ∀ u ∈ rest.take (N - 1), u < t0 + T := by
        intro u hu
        have := List.all_eq_true.mp hall u hu
        rwa [decide_eq_true_eq] at this
      rw [List.length_cons] at hle
      rw [batchRun]
      have hfired : ¬((0 : Nat) < 0 ∧ (0 : Nat) ≤ t0) := by omega
      simp only [if_neg hfired, Nat.zero_add]
      by_cases hN1 : N ≤ 1
      · rw [if_pos hN1]
        have hNeq : N = 1 := by omega
        subst hNeq
        have hwrest' : windowsOk 1 T rest = true := by simpa using hwrest
        rw [ih rest (by omega) hwrest']
        simp only [List.length_cons, Nat.add_sub_cancel, Nat.div_one]
        omega
      · rw [if_neg hN1, if_true]
        by_cases hlen : rest.length + 1 < N
        · have htake : rest.take (N - 1) = rest :=
            List.take_of_length_le (by omega)
          rw [batchRun_window_short N T rest 1 (t0 + T) le_rfl (by omega)
            (fun u hu => hallP u (by rw [htake]; exact hu))]
          rw [List.length_cons]
          symm
          exact Nat.div_eq_of_lt_le (by omega) (by omega)
        · have hlenN : N - 1 ≤ rest.length := by omega
          have htl : (rest.take (N - 1)).length = N - 1 := by
            rw [List.length_take]
            omega
          obtain ⟨u, w', hw'⟩ : ∃ u w', rest.take (N - 1) = u :: w' := by
            apply List.exists_cons_of_ne_nil
            intro hnil
            rw [hnil] at htl
            simp at htl
            omega
          have hw'len : w'.length = N - 2 := by
            rw [hw'] at htl
            rw [List.length_cons] at htl
            omega
          have hsplit : rest = u :: (w' ++ rest.drop (N - 1)) := by
            conv_lhs => rw [← List.take_append_drop (N - 1) rest]
            rw [hw', List.cons_append]
          have heq : batchRun N T 1 (t0 + T) rest =
              1 + batchRun N T 0 0 (rest.drop (N - 1)) := by
            conv_lhs => rw [hsplit]
            exact batchRun_window_full N T w' u (rest.drop (N - 1)) 1 (t0 + T)
              le_rfl (by omega) (hallP u (by rw [hw']; exact List.mem_cons_self _ _))
              (fun v hv => hallP v (by rw [hw']; exact List.mem_cons_of_mem _ hv))
          rw [heq, ih (rest.drop (N - 1)) (by rw [List.length_drop]; omega)
            hwrest]
          rw [List.length_drop, List.length_cons]
          have e1 : rest.length + 1 + N - 1 =
              rest.length - (N - 1) + N - 1 + N := by omega
          rw [e1, Nat.add_div_right _ (by omega : 0 < N)]
          exact Nat.add_comm 1 _

/-- C1: snapshot versions installed by `BuildAndPushSnapshot` in one process
are strictly increasing: for builds `i < j` (with the counter still below the
`uint64` wrap, which any real process satisfies), the `j`-th installed
snapshot's version number — the decimal integer rendered into its version
string — is strictly greater than the `i`-th's.  Both the empty-snapshot path
and the non-empty path bump the counter exactly once. -/
theorem snapshot_versions_strictly_increasing (i j : Nat) (hij : i < j)
    (hj : j + 2 < UINT64_MOD) : installedVersion i < installedVersion j := by
  have hi : i + 2 < UINT64_MOD := by omega
  rw [installedVersion, installedVersion, versionCounterAfter_eq,
    versionCounterAfter_eq]
  rw [Nat.mod_eq_of_lt (by omega), Nat.mod_eq_of_lt (by omega)]
  omega

/-- Witness for C1 at builds 0 and 1. -/
theorem snapshot_versions_strictly_increasing_witness :
    0 < 1 ∧ 1 + 2 < UINT64_MOD ∧ installedVersion 0 < installedVersion 1 := by
  refine ⟨by decide, by decide, ?_⟩
  exact snapshot_versions_strictly_increasing 0 1 (by decide) (by decide)

/-- C8: updating the aggregator twice with the same source id and service
list yields, on the second call, a merged service list identical to the first
call's, and both calls trigger a build-and-push. -/
theorem aggregator_update_idempotent
    (st : List (String × List DiscoveredService)) (loaderId : String)
    (services : List DiscoveredService) :
    (updateServices (updateServices st loaderId services).state loaderId
        services).merged = (updateServices st loaderId services).merged ∧
    (updateServices st loaderId services).pushed = true ∧
    (updateServices (updateServices st loaderId services).state loaderId
        services).pushed = true := by
  refine ⟨?_, rfl, rfl⟩
  simp only [updateServices, setSlot_idem]

/-- C10: the Marathon conversion reaches the out-of-bounds access
`task.Ports[portIndex]` on an input violating the precondition that every
healthy task has at least as many ports as the app has port definitions:
`portlessApp` has a healthy task with 0 ports against 1 port definition, and
the conversion aborts (Go: panics with an index out of range). -/
theorem marathon_convert_out_of_range :
    (∃ t ∈ portlessApp.tasks, isHealthy t = true ∧
      t.ports.length < portlessApp.portDefinitions.length) ∧
    convertToDiscoveredServices [portlessApp] = none := by
  constructor
  · exact ⟨portlessTask, by decide, by decide, by decide⟩
  · rfl

/-- C2 counterexample: a service whose only instance has an empty address —
so no instance with a non-empty address exists — still contributes a
cluster, an (endpoint-less) load assignment, and a route to the snapshot,
because the builder only checks `len(Instances) > 0 ∧ len(Routes) > 0`. -/
theorem builder_contribution_counterexample :
    (∀ inst ∈ emptyAddressService.instances, inst.address = "") ∧
      (buildResources [emptyAddressService]).clusters.map Cluster.name =
        ["s"] ∧
      (buildResources [emptyAddressService]).endpoints =
        [{ clusterName := "s", lbEndpoints := [] }] ∧
      (buildResources [emptyAddressService]).allRoutes =
        [mkRoute "s" pathRoute] := by
  refine ⟨by decide, rfl, rfl, rfl⟩

/-- C2 amended: a service contributes cluster, endpoint, and route
resources to the snapshot if and only if it has at least one instance
(regardless of address) and at least one route; only the non-empty-address
instances become endpoints of its load assignment, possibly leaving it
empty.  Stated for a merged set with unique service names, as the data
model requires. -/
theorem builder_contribution_iff (services : List DiscoveredService)
    (svc : DiscoveredService) (hmem : svc ∈ services)
    (hnodup : (services.map DiscoveredService.name).Nodup) :
    ((∃ c ∈ (buildResources services).clusters, c.name = svc.name) ∧
      (∃ e ∈ (buildResources services).endpoints,
        e.clusterName = svc.name) ∧
      (∃ r ∈ (buildResources services).allRoutes, r.cluster = svc.name)) ↔
      (svc.instances ≠ [] ∧ svc.routes ≠ []) := by
  constructor
  · rintro ⟨hcl, -, -⟩
    obtain ⟨s, hs, hname, hi, hr⟩ := cluster_name_source services svc.name hcl
    have hseq : s = svc := List.inj_on_of_nodup_map hnodup hs hmem hname
    subst hseq
    exact ⟨hi, hr⟩
  · rintro ⟨hi, hr⟩
    exact contributes_of_admitted services svc hmem hi hr

/-- Witness for C2's amended theorem on a singleton service set. -/
theorem builder_contribution_iff_witness :
    simpleService ∈ [simpleService] ∧
      ([simpleService].map DiscoveredService.name).Nodup ∧
      (((∃ c ∈ (buildResources [simpleService]).clusters,
            c.name = simpleService.name) ∧
          (∃ e ∈ (buildResources [simpleService]).endpoints,
            e.clusterName = simpleService.name) ∧
          (∃ r ∈ (buildResources [simpleService]).allRoutes,
            r.cluster = simpleService.name)) ↔
        (simpleService.instances ≠ [] ∧ simpleService.routes ≠ [])) := by
  exact ⟨by decide, by decide,
    builder_contribution_iff [simpleService] simpleService (by decide)
      (by decide)⟩

/-- C3 counterexample: at the trace (error tick, ok tick) the poll loop
performs only the one failing poll and is terminated by the error — the
claim predicts two polls and a loop that survives. -/
theorem marathon_poll_counterexample :
    marathonPollLoop [TickResult.err, TickResult.ok] = (1, true) ∧
      (1, true) ≠ ((2 : Nat), false) := by
  exact ⟨rfl, by decide⟩

/-- C3 amended: when a poll fails transiently after any run of successful
ticks, `LoadConfig` logs the error and returns it, terminating the poll
loop: exactly the ticks up to and including the failing one are polled, and
no later tick runs (main then exits the process). -/
theorem marathon_poll_error_terminates (pre post : List TickResult)
    (h : ∀ t ∈ pre, t = TickResult.ok) :
    marathonPollLoop (pre ++ TickResult.err :: post) =
      (pre.length + 1, true) := by
  induction pre with
  | nil => rfl
  | cons t rest ih =>
    have ht : t = TickResult.ok := h t (List.mem_cons_self t rest)
    have hrest : ∀ u ∈ rest, u = TickResult.ok :=
      fun u hu => h u (List.mem_cons_of_mem t hu)
    subst ht
    rw [List.cons_append, marathonPollLoop, ih hrest]
    simp [List.length_cons]

/-- Witness for C3's amended theorem at one good tick before the failure. -/
theorem marathon_poll_error_terminates_witness :
    (∀ t ∈ [TickResult.ok], t = TickResult.ok) ∧
      marathonPollLoop
          ([TickResult.ok] ++ TickResult.err :: [TickResult.ok]) =
        ([TickResult.ok].length + 1, true) := by
  exact ⟨by decide,
    marathon_poll_error_terminates [TickResult.ok] [TickResult.ok]
      (by decide)⟩

/-- C4 counterexample: on a catalog response containing the `consul`
meta-service, every watcher strategy's candidate list still contains
`consul`, while the (uncalled) `filterServices` helper would have removed
it. -/
theorem watcher_candidates_counterexample :
    "consul" ∈ immediateCandidates consulMapping ∧
      "consul" ∈ batchCandidates consulMapping ∧
      "consul" ∈ debounceCandidates consulMapping ∧
      filterServices consulMapping = ["web"] := by
  refine ⟨?_, ?_, ?_, rfl⟩ <;> decide

/-- C4 amended: each watcher strategy passes the raw catalog keys to the
handler unfiltered — the registry's own `consul` meta-service included;
`filterServices`, which would remove it, is defined in the watcher package
but not called by the immediate, batch, or debounce watcher. -/
theorem watcher_candidates_unfiltered (m : List (String × List String)) :
    immediateCandidates m = m.map Prod.fst ∧
      batchCandidates m = m.map Prod.fst ∧
      debounceCandidates m = m.map Prod.fst ∧
      filterServices m = (m.map Prod.fst).filter (fun n => n ≠ "consul") := by
  refine ⟨?_, ?_, ?_, ?_⟩
  · induction m with
    | nil => rfl
    | cons kv rest ih => simp [immediateCandidates, ih]
  · induction m with
    | nil => rfl
    | cons kv rest ih => simp [batchCandidates, ih]
  · induction m with
    | nil => rfl
    | cons kv rest ih => simp [debounceCandidates, ih]
  · induction m with
    | nil => rfl
    | cons kv rest ih =>
      rw [filterServices, ih, List.map_cons, List.filter_cons]
      by_cases h : kv.1 = "consul"
      · simp [h]
      · simp [h]

/-- C7 counterexample: a registry that answers index 5 and then index 3
drives `lastIndex` along 0, 5, 3 — the watcher accepts the strictly smaller
index, so `lastIndex` is not monotonically nondecreasing. -/
theorem lastIndex_counterexample :
    watchIndexStates 0 [some 5, some 3] = [0, 5, 3] ∧
      nondecreasingB [0, 5, 3] = false := by
  exact ⟨rfl, by decide⟩

/-- C7 amended: `lastIndex` changes exactly when the registry returns an
index different from the current one, and it is set to that index even when
smaller; consequently it is monotonically nondecreasing provided the
registry's returned indices are themselves nondecreasing. -/
theorem lastIndex_nondecreasing (responses : List (Option Nat))
    (h : nondecreasingB (responses.filterMap id) = true) :
    nondecreasingB (watchIndexStates 0 responses) = true := by
  have h0 : nondecreasingB (0 :: responses.filterMap id) = true := by
    cases hfm : responses.filterMap id with
    | nil => rfl
    | cons b t =>
      rw [nondecreasingB, Bool.and_eq_true]
      rw [hfm] at h
      exact ⟨by simp, h⟩
  exact nondecreasingB_tail 0 _ (watchIndexStates_aux responses 0 0 le_rfl h0)

/-- Witness for C7's amended theorem on a nondecreasing response trace with
an interleaved transient error. -/
theorem lastIndex_nondecreasing_witness :
    nondecreasingB ([some 2, none, some 5].filterMap id) = true ∧
      nondecreasingB (watchIndexStates 0 [some 2, none, some 5]) = true := by
  exact ⟨by decide, lastIndex_nondecreasing [some 2, none, some 5] (by decide)⟩

/-- C9 counterexample: `node-a` is already known to the cache (it holds
snapshot 2), yet a further request from `node-a` still copies the reference
snapshot 1 over it — the copy is not restricted to the first request from an
unknown node. -/
theorem stream_request_counterexample :
    cacheGet primedCache "node-a" = some 2 ∧
      onStreamRequest primedCache "node-a" =
        Except.ok [(REFERENCE_KEY, 1), ("node-a", 1)] ∧
      cacheGet [(REFERENCE_KEY, 1), ("node-a", 1)] "node-a" = some 1 := by
  refine ⟨?_, rfl, ?_⟩ <;> decide

/-- C9 amended: on every stream request — first or not — the callback copies
the reference snapshot (when present) into the cache under the requesting
node id, so that the node's cache entry afterwards holds the reference
snapshot; in particular the first request from an unknown node primes its
watch. -/
theorem stream_request_always_copies (cache : List (String × Nat))
    (nodeID : String) (snap : Nat)
    (h : cacheGet cache REFERENCE_KEY = some snap) :
    onStreamRequest cache nodeID = Except.ok (cacheSet cache nodeID snap) ∧
      cacheGet (cacheSet cache nodeID snap) nodeID = some snap := by
  constructor
  · rw [onStreamRequest, h]
  · exact cacheGet_cacheSet_self cache nodeID snap

/-- C5: for the debounce watcher with interval `D`, when `k ≥ 1`
index-advancing changes arrive in time order with each consecutive pair
strictly within `D` of the previous, the armed timer never fires between
changes, so exactly one handler call results — carrying the service list
observed at the latest change. -/
theorem debounce_single_call (D : Nat) (c : Nat × List String)
    (rest : List (Nat × List String)) (h : gapsWithin D (c :: rest) = true) :
    debounceWatch D (c :: rest) =
      [((c :: rest).getLast (List.cons_ne_nil c rest)).2] := by
  obtain ⟨t, s⟩ := c
  rw [debounceWatch, debounceRun,
    if_neg (fun hcon => by exact absurd hcon.1 (by simp))]
  exact debounceRun_armed D rest t s h

/-- Witness for C5 on two changes 3 apart under a 5-unit debounce. -/
theorem debounce_single_call_witness :
    gapsWithin 5 [(0, ["a"]), (3, ["b"])] = true ∧
      debounceWatch 5 [(0, ["a"]), (3, ["b"])] =
        [([((0 : Nat), ["a"]), (3, ["b"])].getLast
            (List.cons_ne_nil _ _)).2] := by
  exact ⟨by decide,
    debounce_single_call 5 (0, ["a"]) [(3, ["b"])] (by decide)⟩

/-- C6 counterexample: with `N = 5`, `T = 10` and three changes at instants
0, 6, 12 — consecutive gaps of 6, none greater than `T` — the batch watcher
makes 2 handler calls, not `⌈3/5⌉ = 1`: the window timer armed at instant 0
fires at instant 10, before the third change, because it is not re-armed by
later changes of the window. -/
theorem batch_calls_counterexample :
    gapsAtMost 10 [0, 6, 12] = true ∧ batchWatch 5 10 [0, 6, 12] = 2 ∧
      ((3 : Nat) + 5 - 1) / 5 = 1 := by
  refine ⟨by decide, by decide, by decide⟩

/-- C6 amended: for the batch watcher with max batch size `N ≥ 1` and
timeout `T`, if every change arrives strictly within `T` of the first
change of its window of `N` consecutive changes (the timeout timer is armed
only at a window's first change and never re-armed), exactly `⌈k/N⌉`
handler calls result for `k` changes: full windows fire immediately at the
`N`-th change and a final partial window fires on its timer. -/
theorem batch_watch_calls (N T : Nat) (hN : 1 ≤ N) (times : List Nat)
    (hw : windowsOk N T times = true) :
    batchWatch N T times = (times.length + N - 1) / N :=
  batchRun_windows_aux N T hN times.length times le_rfl hw

/-- Witness for C6 with `N = 3`, `T = 10` and five changes in two windows:
`⌈5/3⌉ = 2` handler calls. -/
theorem batch_watch_calls_witness :
    1 ≤ 3 ∧ windowsOk 3 10 [0, 1, 2, 20, 21] = true ∧
      batchWatch 3 10 [0, 1, 2, 20, 21] =
        (([0, 1, 2, 20, 21] : List Nat).length + 3 - 1) / 3 := by
  exact ⟨by decide, by decide,
    batch_watch_calls 3 10 (by decide) [0, 1, 2, 20, 21] (by decide)⟩

/-- Witness for C9's amended theorem on a cache holding only the reference
snapshot. -/
theorem stream_request_always_copies_witness :
    cacheGet [(REFERENCE_KEY, 7)] REFERENCE_KEY = some 7 ∧
      (onStreamRequest [(REFERENCE_KEY, 7)] "node-b" =
          Except.ok (cacheSet [(REFERENCE_KEY, 7)] "node-b" 7) ∧
        cacheGet (cacheSet [(REFERENCE_KEY, 7)] "node-b" 7) "node-b" =
          some 7) := by
  exact ⟨by decide,
    stream_request_always_copies [(REFERENCE_KEY, 7)] "node-b" 7 (by decide)⟩

end FlexDS
